import Mathlib

/-!
Verification of the hydration-service process registry, admission queue and
persistence logic (`src/queue.rs`, `src/models.rs`, `src/state.rs`,
`src/hyperbeam.rs`, `src/main.rs`).

The Rust `HashMap<String, _>` maps are embedded as association lists with
`HashMap`-style insert (replace the value at an existing key, else append)
and remove (filter the key out); `VecDeque<ProcessConfig>` is a `List`
(`push_back` appends, `pop_front` takes the head); `DateTime<Utc>`
timestamps are `Nat` values supplied by the caller in place of `Utc::now()`;
`f64` quantities (latencies, sync rates) are embedded as `Rat`; fallible
operations return `Except String`, mirroring `Result<_, String>` — the Rust
error paths return before any mutation, so an `.error` result stands for an
unchanged manager.
-/

namespace Hydration

/-- `ProcessState` from `src/models.rs`. -/
inductive ProcessState where
  | queued
  | active
  | synced
  | error
deriving DecidableEq, Repr

/-- `ProcessConfig` from `src/models.rs`. -/
structure ProcessConfig where
  name : String
  process_id : String
  base_url : Option String
deriving DecidableEq, Repr

/-- `ProcessMetrics` from `src/models.rs` (`f64` fields as `Rat`). -/
structure ProcessMetrics where
  initial_slot_deficit : Option Nat
  slots_advanced_last_check : Nat
  total_slots_advanced : Nat
  sync_start_time : Option Nat
  sync_end_time : Option Nat
  avg_sync_rate : Rat
  api_response_times : List Rat
  check_count : Nat
deriving DecidableEq, Repr

/-- `ProcessMetrics::default()` from `src/models.rs`. -/
def ProcessMetrics.default : ProcessMetrics :=
  { initial_slot_deficit := none
    slots_advanced_last_check := 0
    total_slots_advanced := 0
    sync_start_time := none
    sync_end_time := none
    avg_sync_rate := 0
    api_response_times := []
    check_count := 0 }

instance : Inhabited ProcessMetrics := ⟨ProcessMetrics.default⟩

/-- `ProcessStatus` from `src/models.rs` (reserve maps as association lists). -/
structure ProcessStatus where
  name : String
  process_id : String
  state : ProcessState
  cron_initialized : Bool
  computed_slot : Option Nat
  current_slot : Option Nat
  last_checked : Option Nat
  error : Option String
  metrics : ProcessMetrics
  queue_position : Option Nat
  activated_at : Option Nat
  synced_at : Option Nat
  hb_reserves : Option (List (String × String))
  ao_reserves : Option (List (String × String))
  reserves_last_checked : Option Nat
  cron_created_at : Option Nat
deriving DecidableEq, Repr

/-- `ProcessStatus::new` from `src/models.rs`. -/
def ProcessStatus.new (name process_id : String) : ProcessStatus :=
  { name := name
    process_id := process_id
    state := ProcessState.queued
    cron_initialized := false
    computed_slot := none
    current_slot := none
    last_checked := none
    error := none
    metrics := ProcessMetrics.default
    queue_position := none
    activated_at := none
    synced_at := none
    hb_reserves := none
    ao_reserves := none
    reserves_last_checked := none
    cron_created_at := none }

/-- `HashMap::get`: the value stored at a key, if any. -/
def getA {α : Type} : List (String × α) → String → Option α
  | [], _ => none
  | p :: t, k => if p.1 = k then some p.2 else getA t k

/-- `HashMap::insert`: replace the value at an existing key, else add the entry. -/
def insertA {α : Type} (m : List (String × α)) (k : String) (v : α) : List (String × α) :=
  if (getA m k).isSome then
    m.map (fun p => if p.1 = k then (k, v) else p)
  else
    m ++ [(k, v)]

/-- `HashMap::remove`, dropping the removed value. -/
def eraseA {α : Type} (m : List (String × α)) (k : String) : List (String × α) :=
  m.filter (fun p => p.1 ≠ k)

/-- The in-memory state of `QueueManager` from `src/queue.rs`: the two
secondary indices, the FIFO queue and the canonical registry. -/
structure QueueManager where
  active : List (String × ProcessStatus)
  queued : List ProcessConfig
  synced : List (String × ProcessStatus)
  all_processes : List (String × ProcessStatus)
deriving DecidableEq, Repr

/-- `QueueManager::new` from `src/queue.rs`. -/
def QueueManager.new : QueueManager :=
  { active := [], queued := [], synced := [], all_processes := [] }

/-- `MAX_ACTIVE_PROCESSES` from `src/queue.rs` line 8. -/
def MAX_ACTIVE_PROCESSES : Nat := 5

/-- `QueueManager::add_to_queue` from `src/queue.rs` lines 27-52. -/
def QueueManager.add_to_queue (qm : QueueManager) (config : ProcessConfig) :
    Except String QueueManager :=
  let process_id := config.process_id
  if (getA qm.all_processes process_id).isSome then
    Except.error ("Process " ++ process_id ++ " already exists")
  else
    let status0 := { ProcessStatus.new config.name process_id with
                     state := ProcessState.queued }
    let queued' := qm.queued ++ [config]
    let status := { status0 with queue_position := some (queued'.length - 1) }
    Except.ok { qm with
                queued := queued'
                all_processes := insertA qm.all_processes process_id status }

/-- The queue-position renumbering loop of `activate_next` (`src/queue.rs`
lines 77-83): walk the remaining queue and, for each entry whose id is
registered, set that record's `queue_position` to its index. `i` is the
running value of the Rust `enumerate` index. -/
def renumberFrom (all : List (String × ProcessStatus)) (i : Nat) :
    List ProcessConfig → List (String × ProcessStatus)
  | [] => all
  | c :: cs =>
    let all' :=
      match getA all c.process_id with
      | some st => insertA all c.process_id { st with queue_position := some i }
      | none => all
    renumberFrom all' (i + 1) cs

/-- `QueueManager::activate_next` from `src/queue.rs` lines 54-89. Returns
the popped configuration (if any) and the new manager state; `now` stands
for `Utc::now()`. -/
def QueueManager.activate_next (qm : QueueManager) (now : Nat) :
    Option ProcessConfig × QueueManager :=
  if qm.active.length ≥ MAX_ACTIVE_PROCESSES then
    (none, qm)
  else
    match qm.queued with
    | [] => (none, qm)
    | config :: rest =>
      let process_id := config.process_id
      match getA qm.all_processes process_id with
      | some status =>
        let status' := { status with
                         state := ProcessState.active
                         activated_at := some now
                         queue_position := none }
        let all1 := insertA qm.all_processes process_id status'
        let active' := insertA qm.active process_id status'
        (some config, { qm with
                        active := active'
                        queued := rest
                        all_processes := renumberFrom all1 0 rest })
      | none =>
        (some config, { qm with
                        queued := rest
                        all_processes := renumberFrom qm.all_processes 0 rest })

/-- `QueueManager::mark_synced` from `src/queue.rs` lines 91-110: the record
moved is the one held by the active index. -/
def QueueManager.mark_synced (qm : QueueManager) (process_id : String) (now : Nat) :
    Except String QueueManager :=
  match getA qm.active process_id with
  | some status =>
    let status' := { status with state := ProcessState.synced, synced_at := some now }
    Except.ok { qm with
                active := eraseA qm.active process_id
                synced := insertA qm.synced process_id status'
                all_processes := insertA qm.all_processes process_id status' }
  | none => Except.error ("Process " ++ process_id ++ " not in active list")

/-- `QueueManager::mark_error` from `src/queue.rs` lines 112-127. -/
def QueueManager.mark_error (qm : QueueManager) (process_id : String) (e : String) :
    Except String QueueManager :=
  match getA qm.active process_id with
  | some status =>
    let status' := { status with state := ProcessState.error, error := some e }
    Except.ok { qm with
                active := eraseA qm.active process_id
                all_processes := insertA qm.all_processes process_id status' }
  | none => Except.error ("Process " ++ process_id ++ " not in active list")

/-- `QueueManager::restart_process` from `src/queue.rs` lines 129-157. Note
that it mutates only the registry and the queue: the restarted id is never
removed from the `active` or `synced` index. -/
def QueueManager.restart_process (qm : QueueManager) (process_id : String) :
    Except String QueueManager :=
  match getA qm.all_processes process_id with
  | some status =>
    let status0 := { status with
                     state := ProcessState.queued
                     error := none
                     cron_initialized := false
                     activated_at := none
                     synced_at := none
                     metrics := ProcessMetrics.default }
    let config : ProcessConfig :=
      { name := status.name, process_id := process_id, base_url := none }
    let queued' := qm.queued ++ [config]
    let status' := { status0 with queue_position := some (queued'.length - 1) }
    Except.ok { qm with
                queued := queued'
                all_processes := insertA qm.all_processes process_id status' }
  | none => Except.error ("Process " ++ process_id ++ " not found")

/-- `QueueManager::update_process_status` from `src/queue.rs` lines 188-210:
apply the transform to the registry record, then re-propagate the snapshot
into whichever secondary index currently holds the id. -/
def QueueManager.update_process_status (qm : QueueManager) (process_id : String)
    (f : ProcessStatus → ProcessStatus) : Except String QueueManager :=
  match getA qm.all_processes process_id with
  | some status =>
    let status' := f status
    let active' :=
      if (getA qm.active process_id).isSome then insertA qm.active process_id status'
      else qm.active
    let synced' :=
      if (getA qm.synced process_id).isSome then insertA qm.synced process_id status'
      else qm.synced
    Except.ok { qm with
                active := active'
                synced := synced'
                all_processes := insertA qm.all_processes process_id status' }
  | none => Except.error ("Process " ++ process_id ++ " not found")

/-- `ProcessStatus::deficit` from `src/models.rs` lines 92-97: `Some(current -
computed)` only in the arm guarded by `current > computed`; every other case
(either slot unknown, or `current <= computed`) falls to the `_ => None` arm. -/
def ProcessStatus.deficit (s : ProcessStatus) : Option Nat :=
  match s.current_slot, s.computed_slot with
  | some current, some computed =>
    if current > computed then some (current - computed) else none
  | _, _ => none

/-- `ProcessStatus::is_synced` from `src/models.rs` lines 99-104. -/
def ProcessStatus.is_synced (s : ProcessStatus) : Bool :=
  match s.current_slot, s.computed_slot with
  | some current, some computed => current == computed
  | _, _ => false

/-- The excluded placeholder keys of `ProcessStatus::reserves_match`
(`src/models.rs` line 111). -/
def excludedReserveKeys : List String := ["TokenA", "TokenB", "K"]

/-- `ProcessStatus::reserves_match` from `src/models.rs` lines 106-143
(`key.len()` is byte length in Rust; for the 43-character token ids compared
here it coincides with `String.length`). -/
def ProcessStatus.reserves_match (s : ProcessStatus) : Option Bool :=
  match s.hb_reserves, s.ao_reserves with
  | some hb, some ao =>
    let hb_tokens := hb.filter fun p =>
      p.1.length == 43 && !(excludedReserveKeys.contains p.1)
    let ao_tokens := ao.filter fun p => p.1.length == 43
    if hb_tokens.length ≠ ao_tokens.length then some false
    else if hb_tokens.any fun p =>
        match getA ao_tokens p.1 with
        | some ao_amount => p.2 != ao_amount
        | none => true
      then some false
    else some true
  | _, _ => none

/-- `SlotCheckResult` from `src/hyperbeam.rs` lines 121-127. -/
structure SlotCheckResult where
  computed_slot : Nat
  current_slot : Nat
  computed_response_time : Rat
  current_response_time : Rat
deriving DecidableEq, Repr

/-- `SlotCheckResult::is_synced` from `src/hyperbeam.rs` lines 130-132. -/
def SlotCheckResult.is_synced (r : SlotCheckResult) : Bool :=
  r.computed_slot == r.current_slot

/-- `SlotCheckResult::deficit` from `src/hyperbeam.rs` lines 134-140. -/
def SlotCheckResult.deficit (r : SlotCheckResult) : Nat :=
  if r.current_slot > r.computed_slot then r.current_slot - r.computed_slot else 0

/-- `HyperBeamClient::check_slots` from `src/hyperbeam.rs` lines 94-113: the
two remote slot reads are joined and then unwrapped with `?` in order, so a
failure of either call fails the whole check. The remote calls themselves are
the external boundary; their outcomes are the function's inputs here. -/
def check_slots (computedRes currentRes : Except String (Nat × Rat)) :
    Except String SlotCheckResult :=
  match computedRes with
  | Except.error e => Except.error e
  | Except.ok (computed_slot, computed_time) =>
    match currentRes with
    | Except.error e => Except.error e
    | Except.ok (current_slot, current_time) =>
      Except.ok { computed_slot := computed_slot
                  current_slot := current_slot
                  computed_response_time := computed_time
                  current_response_time := current_time }

/-- `ReservesResult` from `src/hyperbeam.rs` lines 262-266. -/
structure ReservesResult where
  hb_reserves : Option (List (String × String))
  ao_reserves : Option (List (String × String))
deriving DecidableEq, Repr

/-- The status-update closure of `check_process` (`src/main.rs` lines
479-517). `previous_computed` is the `computed_slot` of the snapshot the
caller holds, `now` stands for every `Utc::now()` in the closure. -/
def checkUpdateClosure (previous_computed : Option Nat) (result : SlotCheckResult)
    (now : Nat) (status : ProcessStatus) : ProcessStatus :=
  let m := status.metrics
  let m := { m with
             check_count := m.check_count + 1
             api_response_times := m.api_response_times ++
               [result.computed_response_time, result.current_response_time] }
  let m := if m.api_response_times.length > 20 then
             { m with api_response_times :=
                 m.api_response_times.drop (m.api_response_times.length - 20) }
           else m
  let m :=
    match previous_computed with
    | some prev =>
      if result.computed_slot > prev then
        let adv := result.computed_slot - prev
        { m with
          slots_advanced_last_check := adv
          total_slots_advanced := m.total_slots_advanced + adv }
      else { m with slots_advanced_last_check := 0 }
    | none => m
  let m := if m.initial_slot_deficit.isNone then
             { m with
               initial_slot_deficit := some result.deficit
               sync_start_time := some now }
           else m
  let m :=
    match m.sync_start_time with
    | some start =>
      let minutes : Rat := ((now : Rat) - (start : Rat)) / 60
      if minutes > 0 ∧ m.total_slots_advanced > 0 then
        { m with avg_sync_rate := (m.total_slots_advanced : Rat) / minutes }
      else m
    | none => m
  { status with
    computed_slot := some result.computed_slot
    current_slot := some result.current_slot
    last_checked := some now
    metrics := m }

/-- `check_process` from `src/main.rs` lines 470-537. The remote outcomes
(the joined slot check and the best-effort reserve fetch on the sync path)
are inputs; the function returns the manager after the call together with
the error reported to the caller, if any. The `?` on `check_slots` fires
before any mutation, so on a poll failure the manager is returned as it
came in. -/
def check_process (qm : QueueManager) (process : ProcessStatus)
    (slotResult : Except String SlotCheckResult)
    (reservesResult : Except String ReservesResult) (now : Nat) :
    QueueManager × Option String :=
  match slotResult with
  | Except.error e => (qm, some e)
  | Except.ok result =>
    let previous_computed := process.computed_slot
    match qm.update_process_status process.process_id
        (checkUpdateClosure previous_computed result now) with
    | Except.error e => (qm, some e)
    | Except.ok qm1 =>
      if result.is_synced then
        match qm1.mark_synced process.process_id now with
        | Except.error e => (qm1, some e)
        | Except.ok qm2 =>
          match reservesResult with
          | Except.ok reserves =>
            match qm2.update_process_status process.process_id (fun st =>
                { st with
                  hb_reserves := reserves.hb_reserves
                  ao_reserves := reserves.ao_reserves
                  reserves_last_checked := some now }) with
            | Except.ok qm3 => (qm3, none)
            | Except.error _ => (qm2, none)
          | Except.error _ => (qm2, none)
      else (qm1, none)

/-- `ProcessMetricsData` from `src/models.rs` lines 168-176. -/
structure ProcessMetricsData where
  initial_slot_deficit : Option Nat
  total_slots_advanced : Nat
  sync_start_time : Option Nat
  sync_end_time : Option Nat
  avg_sync_rate : Rat
  check_count : Nat
deriving DecidableEq, Repr

/-- `ProcessStatusData` from `src/models.rs` lines 156-166. -/
structure ProcessStatusData where
  state : ProcessState
  cron_initialized : Bool
  computed_slot : Option Nat
  current_slot : Option Nat
  last_checked : Option Nat
  synced_at : Option Nat
  activated_at : Option Nat
  metrics : ProcessMetricsData
deriving DecidableEq, Repr

/-- `StateFile` from `src/models.rs` lines 146-154. -/
structure StateFile where
  version : String
  last_updated : Nat
  queued_process_ids : List String
  active_process_ids : List String
  synced_process_ids : List String
  processes : List (String × ProcessStatusData)
deriving DecidableEq, Repr

/-- The per-record projection `save_state` persists (`src/state.rs` lines
18-39). -/
def statusToData (status : ProcessStatus) : ProcessStatusData :=
  { state := status.state
    cron_initialized := status.cron_initialized
    computed_slot := status.computed_slot
    current_slot := status.current_slot
    last_checked := status.last_checked
    synced_at := status.synced_at
    activated_at := status.activated_at
    metrics := { initial_slot_deficit := status.metrics.initial_slot_deficit
                 total_slots_advanced := status.metrics.total_slots_advanced
                 sync_start_time := status.metrics.sync_start_time
                 sync_end_time := status.metrics.sync_end_time
                 avg_sync_rate := status.metrics.avg_sync_rate
                 check_count := status.metrics.check_count } }

/-- `save_state` from `src/state.rs` lines 11-54, producing the persisted
document (the JSON serialization boundary is out of scope); `now` stands for
`Utc::now()`. -/
def save_state (qm : QueueManager) (now : Nat) : StateFile :=
  { version := "2.0"
    last_updated := now
    active_process_ids := qm.active.map (·.1)
    synced_process_ids := qm.synced.map (·.1)
    queued_process_ids := qm.queued.map (·.process_id)
    processes := qm.all_processes.map fun p => (p.1, statusToData p.2) }

/-- The record reconstruction of `load_state` (`src/state.rs` lines 72-99):
the name defaults to the id, the error, queue position, reserve maps and
latency window are reset. -/
def dataToStatus (id : String) (data : ProcessStatusData) : ProcessStatus :=
  { name := id
    process_id := id
    state := data.state
    cron_initialized := data.cron_initialized
    computed_slot := data.computed_slot
    current_slot := data.current_slot
    last_checked := data.last_checked
    error := none
    metrics := { initial_slot_deficit := data.metrics.initial_slot_deficit
                 slots_advanced_last_check := 0
                 total_slots_advanced := data.metrics.total_slots_advanced
                 sync_start_time := data.metrics.sync_start_time
                 sync_end_time := data.metrics.sync_end_time
                 avg_sync_rate := data.metrics.avg_sync_rate
                 api_response_times := []
                 check_count := data.metrics.check_count }
    queue_position := none
    activated_at := data.activated_at
    synced_at := data.synced_at
    hb_reserves := none
    ao_reserves := none
    reserves_last_checked := none
    cron_created_at := none }

/-- One step of the first restore loop of `load_state` (`src/state.rs` lines
72-115): install the record, mirroring Active/Synced records into their
index. -/
def loadStep (acc : QueueManager) (p : String × ProcessStatusData) : QueueManager :=
  let status := dataToStatus p.1 p.2
  let acc :=
    match p.2.state with
    | ProcessState.active => { acc with active := insertA acc.active p.1 status }
    | ProcessState.synced => { acc with synced := insertA acc.synced p.1 status }
    | _ => acc
  { acc with all_processes := insertA acc.all_processes p.1 status }

/-- The explicit-list queue restore loop of `load_state` (`src/state.rs`
lines 119-133): for each listed id that is registered, force state to
Queued, set the position to the running index, and push a rebuilt config;
the index advances for unknown ids too (`enumerate`). -/
def restoreQueue (all : List (String × ProcessStatus)) (qs : List ProcessConfig)
    (i : Nat) : List String → List (String × ProcessStatus) × List ProcessConfig
  | [] => (all, qs)
  | pid :: rest =>
    match getA all pid with
    | some st =>
      let st' := { st with queue_position := some i, state := ProcessState.queued }
      restoreQueue (insertA all pid st')
        (qs ++ [{ name := st.name, process_id := pid, base_url := none }]) (i + 1) rest
    | none => restoreQueue all qs (i + 1) rest

/-- The legacy queue restore loop of `load_state` (`src/state.rs` lines
145-156): as the explicit loop but without touching `state`. -/
def restoreQueueLegacy (all : List (String × ProcessStatus)) (qs : List ProcessConfig)
    (i : Nat) : List String → List (String × ProcessStatus) × List ProcessConfig
  | [] => (all, qs)
  | pid :: rest =>
    match getA all pid with
    | some st =>
      let st' := { st with queue_position := some i }
      restoreQueueLegacy (insertA all pid st')
        (qs ++ [{ name := st.name, process_id := pid, base_url := none }]) (i + 1) rest
    | none => restoreQueueLegacy all qs (i + 1) rest

/-- Insert into a lexicographically sorted list of strings. -/
def insertSorted (s : String) : List String → List String
  | [] => [s]
  | t :: ts => if s ≤ t then s :: t :: ts else t :: insertSorted s ts

/-- The `queued_processes.sort()` of the legacy restore path (`src/state.rs`
line 143): lexicographic sort. -/
def sortStrings : List String → List String
  | [] => []
  | s :: ss => insertSorted s (sortStrings ss)

/-- `load_state` from `src/state.rs` lines 56-163, reading a parsed persisted
document into a fresh manager (at startup the manager's maps are empty). -/
def load_state (sf : StateFile) : QueueManager :=
  let qm0 := sf.processes.foldl loadStep QueueManager.new
  if sf.queued_process_ids ≠ [] then
    let r := restoreQueue qm0.all_processes [] 0 sf.queued_process_ids
    { qm0 with all_processes := r.1, queued := r.2 }
  else
    let qids := sortStrings
      ((sf.processes.filter fun p => decide (p.2.state = ProcessState.queued)).map (·.1))
    let r := restoreQueueLegacy qm0.all_processes [] 0 qids
    { qm0 with all_processes := r.1, queued := r.2 }

/-- The registry/queue operations a caller can drive the manager with (the
API handlers and scheduler loops of `src/main.rs` reduce to these). -/
inductive Op where
  | add (config : ProcessConfig)
  | activate (now : Nat)
  | markSynced (id : String) (now : Nat)
  | markError (id : String) (e : String)
  | restart (id : String)
  | mutate (id : String) (f : ProcessStatus → ProcessStatus)

/-- Apply one operation; a rejected operation (`Err` in Rust) leaves the
manager unchanged, which is exactly what the Rust error paths do. -/
def applyOp (qm : QueueManager) : Op → QueueManager
  | Op.add c =>
    match qm.add_to_queue c with
    | Except.ok q => q
    | Except.error _ => qm
  | Op.activate now => (qm.activate_next now).2
  | Op.markSynced id now =>
    match qm.mark_synced id now with
    | Except.ok q => q
    | Except.error _ => qm
  | Op.markError id e =>
    match qm.mark_error id e with
    | Except.ok q => q
    | Except.error _ => qm
  | Op.restart id =>
    match qm.restart_process id with
    | Except.ok q => q
    | Except.error _ => qm
  | Op.mutate id f =>
    match qm.update_process_status id f with
    | Except.ok q => q
    | Except.error _ => qm

/-- Run a sequence of operations. -/
def runOps (qm : QueueManager) (ops : List Op) : QueueManager :=
  ops.foldl applyOp qm

/-! ## Concrete scenarios used by counterexamples and witnesses -/


def configA : ProcessConfig := { name := "A", process_id := "A", base_url := none }

def configB : ProcessConfig := { name := "B", process_id := "B", base_url := none }

def configC : ProcessConfig := { name := "C", process_id := "C", base_url := none }

def configD : ProcessConfig := { name := "D", process_id := "D", base_url := none }

def configE : ProcessConfig := { name := "E", process_id := "E", base_url := none }

def configF : ProcessConfig := { name := "F", process_id := "F", base_url := none }

/-- Register A, admit it, then restart it (the C1 failing input). -/
def qmRestartActive : QueueManager :=
  runOps QueueManager.new [Op.add configA, Op.activate 10, Op.restart "A"]

/-- A status whose two slots are both known and equal. -/
def statusSlotsEqual : ProcessStatus :=
  { ProcessStatus.new "P" "P" with current_slot := some 5, computed_slot := some 5 }

/-- A status whose current slot is ahead of its computed slot by 3. -/
def statusBehind : ProcessStatus :=
  { ProcessStatus.new "P" "P" with current_slot := some 7, computed_slot := some 4 }

/-- A slot check observing current 7, computed 4. -/
def slotResultBehind : SlotCheckResult :=
  { computed_slot := 4, current_slot := 7
    computed_response_time := 0, current_response_time := 0 }

/-- Six registrations followed by five admissions: the active index is full
and F still waits in the queue. -/
def qmFullActive : QueueManager :=
  runOps QueueManager.new
    [Op.add configA, Op.add configB, Op.add configC, Op.add configD, Op.add configE,
     Op.add configF, Op.activate 1, Op.activate 2, Op.activate 3, Op.activate 4, Op.activate 5]

/-- A single queued registration. -/
def qmQueuedA : QueueManager := runOps QueueManager.new [Op.add configA]

/-- The record `qmQueuedA` holds for A. -/
def statusQueuedA : ProcessStatus :=
  { ProcessStatus.new "A" "A" with state := ProcessState.queued, queue_position := some 0 }

/-- The filtered view both maps are reduced to: keys of exactly 43
characters, the placeholder keywords skipped. -/
def filteredTokens (m : List (String × String)) : List (String × String) :=
  m.filter fun p => p.1.length == 43 && !(excludedReserveKeys.contains p.1)

/-- A 43-character token id. -/
def tokenX : String := "XXXXXXXXXXXXXXXXXXXXXXXXXXXXXXXXXXXXXXXXXXX"

/-- A record with both reserve maps present, agreeing on the one real token;
the placeholder keys fall to the 43-character filter. -/
def statusReserves : ProcessStatus :=
  { ProcessStatus.new "P" "P" with
    hb_reserves := some [(tokenX, "100"), ("TokenA", "7"), ("K", "3")]
    ao_reserves := some [(tokenX, "100"), ("extra", "1")] }

/-- Register A and B, admit A, restart A twice, then admit again: the queue
holds a duplicated id along the way (C4 counterexample state). -/
def qmDupQueue : QueueManager :=
  runOps QueueManager.new
    [Op.add configA, Op.add configB, Op.activate 1, Op.restart "A", Op.restart "A", Op.activate 2]

/-- Two queued registrations. -/
def qmTwoQueued : QueueManager := runOps QueueManager.new [Op.add configA, Op.add configB]

/-- Four registrations, one admitted and marked synced, one admitted: A is
Synced, B Active, C and D queued, so a save/load witness covers every kind
of record. -/
def qmPersist : QueueManager :=
  runOps QueueManager.new
    [Op.add configA, Op.add configB, Op.add configC, Op.add configD,
     Op.activate 1, Op.markSynced "A" 2, Op.activate 3]

/-! ## Lemmas about the embedded `HashMap` operations -/

theorem getA_map_replace {α : Type} (k k' : String) (v : α) (m : List (String × α)) :
    getA (m.map fun p => if p.1 = k then (k, v) else p) k'
      = if k' = k then (getA m k).map (fun _ => v) else getA m k' := by
  induction m with
  | nil => by_cases h : k' = k <;> simp [getA, h]
  | cons a t ih =>
    by_cases hak : a.1 = k
    · by_cases hk : k' = k
      · subst hk; simp [getA, hak, ih]
      · simp [getA, hak, hk, Ne.symm hk, ih]
    · by_cases hk : k' = k
      · subst hk; simp [getA, hak, ih]
      · by_cases hka : a.1 = k'
        · simp [getA, hak, hka, hk, ih]
        · simp [getA, hak, hka, hk, ih]

theorem getA_append_single {α : Type} (m : List (String × α)) (k k' : String) (v : α) :
    getA (m ++ [(k, v)]) k' =
      match getA m k' with
      | some w => some w
      | none => if k = k' then some v else none := by
  induction m with
  | nil => simp [getA]
  | cons a t ih => by_cases h : a.1 = k' <;> simp [getA, h, ih]

/-- The characteristic equation of `insertA`. -/
theorem getA_insertA {α : Type} (m : List (String × α)) (k k' : String) (v : α) :
    getA (insertA m k v) k' = if k' = k then some v else getA m k' := by
  unfold insertA
  by_cases hp : (getA m k).isSome
  · rw [if_pos hp, getA_map_replace]
    by_cases hk : k' = k
    · subst hk
      cases hgm : getA m k' with
      | some w => simp
      | none => rw [hgm] at hp; simp at hp
    · simp [hk]
  · rw [if_neg hp, getA_append_single]
    by_cases hk : k' = k
    · subst hk
      cases hgm : getA m k' with
      | some w => rw [hgm] at hp; simp at hp
      | none => simp
    · cases hgm : getA m k' with
      | some w => simp [hk]
      | none => simp [hk, Ne.symm hk]

theorem length_insertA_le {α : Type} (m : List (String × α)) (k : String) (v : α) :
    (insertA m k v).length ≤ m.length + 1 := by
  unfold insertA
  split
  · simp
  · simp

theorem length_insertA_of_isSome {α : Type} (m : List (String × α)) (k : String) (v : α)
    (h : (getA m k).isSome) : (insertA m k v).length = m.length := by
  unfold insertA
  rw [if_pos h, List.length_map]

theorem length_eraseA_le {α : Type} (m : List (String × α)) (k : String) :
    (eraseA m k).length ≤ m.length :=
  List.length_filter_le _ _



theorem applyOp_active_le (qm : QueueManager) (op : Op)
    (h : qm.active.length ≤ MAX_ACTIVE_PROCESSES) :
    (applyOp qm op).active.length ≤ MAX_ACTIVE_PROCESSES := by
  cases op with
  | add c =>
    by_cases hc : (getA qm.all_processes c.process_id).isSome
    · simp [applyOp, QueueManager.add_to_queue, hc, h]
    · simp [applyOp, QueueManager.add_to_queue, hc, h]
  | activate now =>
    simp only [applyOp, QueueManager.activate_next]
    by_cases hfull : qm.active.length ≥ MAX_ACTIVE_PROCESSES
    · rw [if_pos hfull]; exact h
    · rw [if_neg hfull]
      split
      · exact h
      · split
        · refine le_trans (length_insertA_le _ _ _) ?_
          omega
        · exact h
  | markSynced id now =>
    cases hg : getA qm.active id with
    | some status =>
      simp only [applyOp, QueueManager.mark_synced, hg]
      exact le_trans (length_eraseA_le qm.active id) h
    | none => simp [applyOp, QueueManager.mark_synced, hg, h]
  | markError id e =>
    cases hg : getA qm.active id with
    | some status =>
      simp only [applyOp, QueueManager.mark_error, hg]
      exact le_trans (length_eraseA_le qm.active id) h
    | none => simp [applyOp, QueueManager.mark_error, hg, h]
  | restart id =>
    cases hg : getA qm.all_processes id with
    | some status => simp [applyOp, QueueManager.restart_process, hg, h]
    | none => simp [applyOp, QueueManager.restart_process, hg, h]
  | mutate id f =>
    cases hg : getA qm.all_processes id with
    | some status =>
      simp only [applyOp, QueueManager.update_process_status, hg]
      by_cases ha : (getA qm.active id).isSome
      · simp only [ha, if_pos]
        rw [length_insertA_of_isSome qm.active id (f status) ha]
        exact h
      · simp [ha, h]
    | none => simp [applyOp, QueueManager.update_process_status, hg, h]

theorem runOps_active_le (ops : List Op) (qm : QueueManager)
    (h : qm.active.length ≤ MAX_ACTIVE_PROCESSES) :
    (runOps qm ops).active.length ≤ MAX_ACTIVE_PROCESSES := by
  induction ops generalizing qm with
  | nil => exact h
  | cons op rest ih => exact ih (applyOp qm op) (applyOp_active_le qm op h)


/-- C1: the agreement between a record's `state` field and its index
membership is not preserved by `restart_process`: after registering A,
admitting it and restarting it, the registry records A as Queued while "A"
is still a key of the Active Index (`restart_process` never removes the id
from the `active` or `synced` maps), so a Queued record sits in a secondary
index. -/
theorem restart_breaks_state_index_agreement :
    (getA qmRestartActive.all_processes "A").map (fun s => s.state)
        = some ProcessState.queued ∧
    (getA qmRestartActive.active "A").isSome = true := by decide

/-- C2 counterexample: a record with both slots known and equal (current 5,
computed 5) has `deficit` `none`, not `some 0`: the claim's "equals 0
otherwise" and "None exactly when either slot is unknown" both fail at this
input. -/
theorem deficit_not_zero_at_equal_slots :
    statusSlotsEqual.current_slot = some 5 ∧ statusSlotsEqual.computed_slot = some 5 ∧
    statusSlotsEqual.deficit = none ∧ ¬ statusSlotsEqual.deficit = some 0 := by decide

/-- C2 amended: `ProcessStatus::deficit` is `some (current - computed)` when
both slots are known and `current > computed`, and `none` in every other
case — when either slot is unknown but also when both are known with
`current ≤ computed`; `SlotCheckResult::deficit` (slots always known) is
`current - computed` when `current > computed` and 0 otherwise. -/
theorem deficit_characterization (s : ProcessStatus) (r : SlotCheckResult) :
    (s.current_slot = none ∨ s.computed_slot = none → s.deficit = none) ∧
    (∀ current computed, s.current_slot = some current → s.computed_slot = some computed →
      (computed < current → s.deficit = some (current - computed)) ∧
      (current ≤ computed → s.deficit = none)) ∧
    (r.computed_slot < r.current_slot → r.deficit = r.current_slot - r.computed_slot) ∧
    (r.current_slot ≤ r.computed_slot → r.deficit = 0) := by
  refine ⟨?_, ?_, ?_, ?_⟩
  · rintro (h | h)
    · simp [ProcessStatus.deficit, h]
    · cases hc : s.current_slot <;> simp [ProcessStatus.deficit, h, hc]
  · intro current computed hc hk
    constructor
    · intro hlt
      simp [ProcessStatus.deficit, hc, hk, hlt]
    · intro hle
      simp [ProcessStatus.deficit, hc, hk]
      omega
  · intro hlt
    simp [SlotCheckResult.deficit, hlt]
  · intro hle
    simp [SlotCheckResult.deficit]
    omega

theorem deficit_characterization_witness :
    statusBehind.deficit = some 3 ∧ slotResultBehind.deficit = 3 := by
  have h := deficit_characterization statusBehind slotResultBehind
  refine ⟨?_, h.2.2.1 (by decide)⟩
  have h2 := (h.2.1 7 4 (by decide) (by decide)).1 (by decide)
  exact h2

/-- C3: from an empty manager, no sequence of operations pushes the Active
Index past `MAX_ACTIVE_PROCESSES`; and a manager whose Active Index is at
(or past) the limit gets `(none, unchanged)` from `activate_next` — the
queue is not popped and no state changes. -/
theorem active_index_bounded (ops : List Op) (qm : QueueManager) (now : Nat)
    (h : MAX_ACTIVE_PROCESSES ≤ qm.active.length) :
    (runOps QueueManager.new ops).active.length ≤ MAX_ACTIVE_PROCESSES ∧
    qm.activate_next now = (none, qm) := by
  constructor
  · exact runOps_active_le ops QueueManager.new (by simp [QueueManager.new])
  · unfold QueueManager.activate_next
    rw [if_pos h]

theorem active_index_bounded_witness :
    (runOps QueueManager.new [Op.add configA, Op.activate 0]).active.length
        ≤ MAX_ACTIVE_PROCESSES ∧
    qmFullActive.activate_next 7 = (none, qmFullActive) :=
  active_index_bounded [Op.add configA, Op.activate 0] qmFullActive 7 (by decide)

/-- C10: restarting an id whose record is registered and already present in
the FIFO queue appends a second configuration with the same id at the tail
without removing the existing entry, so the id occurs at least twice in the
queue; concretely, after registering A and restarting it the queue is
[A, A] and two successive `activate_next` calls both admit A. -/
theorem restart_of_queued_id_duplicates_entry (qm : QueueManager) (id : String)
    (st : ProcessStatus) (hreg : getA qm.all_processes id = some st)
    (hin : id ∈ qm.queued.map (·.process_id)) :
    ∃ qm', qm.restart_process id = Except.ok qm' ∧
      qm'.queued = qm.queued ++ [{ name := st.name, process_id := id, base_url := none }] ∧
      2 ≤ ((qm'.queued.map (·.process_id)).count id) ∧
      ((runOps qmQueuedA [Op.restart "A"]).queued.map (·.process_id) = ["A", "A"] ∧
        ((runOps qmQueuedA [Op.restart "A"]).activate_next 1).1.map (·.process_id)
            = some "A" ∧
        (((runOps qmQueuedA [Op.restart "A"]).activate_next 1).2.activate_next 2).1.map
            (·.process_id) = some "A") := by
  unfold QueueManager.restart_process
  rw [hreg]
  refine ⟨_, rfl, rfl, ?_, by decide⟩
  rw [List.map_append, List.count_append]
  simp
  simpa using hin

theorem restart_of_queued_id_duplicates_entry_witness :
    ∃ qm', qmQueuedA.restart_process "A" = Except.ok qm' ∧
      qm'.queued = qmQueuedA.queued ++
        [{ name := statusQueuedA.name, process_id := "A", base_url := none }] ∧
      2 ≤ ((qm'.queued.map (·.process_id)).count "A") ∧
      ((runOps qmQueuedA [Op.restart "A"]).queued.map (·.process_id) = ["A", "A"] ∧
        ((runOps qmQueuedA [Op.restart "A"]).activate_next 1).1.map (·.process_id)
            = some "A" ∧
        (((runOps qmQueuedA [Op.restart "A"]).activate_next 1).2.activate_next 2).1.map
            (·.process_id) = some "A") :=
  restart_of_queued_id_duplicates_entry qmQueuedA "A" statusQueuedA (by decide) (by decide)



/-- C5: for a registered id - whatever its state - `restart_process` clears
the error, resets every metrics field to its default, clears the
initialization flag and both lifecycle timestamps, sets the state to Queued
and re-enqueues the id at the tail of the FIFO queue with the fresh tail
position; every other record is untouched, and so are both secondary
indices. For an unknown id it fails with the not-found error (the Rust error
path returns before any mutation). -/
theorem restart_resets_record (qm : QueueManager) (id : String) :
    (∀ st, getA qm.all_processes id = some st →
      ∃ qm', qm.restart_process id = Except.ok qm' ∧
        qm'.queued = qm.queued ++
          [{ name := st.name, process_id := id, base_url := none }] ∧
        getA qm'.all_processes id = some
          { st with
            state := ProcessState.queued
            error := none
            cron_initialized := false
            activated_at := none
            synced_at := none
            metrics := ProcessMetrics.default
            queue_position := some qm.queued.length } ∧
        qm'.active = qm.active ∧ qm'.synced = qm.synced ∧
        (∀ j, j ≠ id → getA qm'.all_processes j = getA qm.all_processes j)) ∧
    (getA qm.all_processes id = none →
      qm.restart_process id = Except.error ("Process " ++ id ++ " not found")) := by
  constructor
  · intro st hreg
    unfold QueueManager.restart_process
    rw [hreg]
    refine ⟨_, rfl, rfl, ?_, rfl, rfl, ?_⟩
    · rw [getA_insertA, if_pos rfl]
      simp
    · intro j hj
      rw [getA_insertA, if_neg hj]
  · intro h
    unfold QueueManager.restart_process
    rw [h]

theorem restart_resets_record_witness :
    (qmQueuedA.restart_process "Z" = Except.error ("Process Z not found")) ∧
    ((qmQueuedA.restart_process "A").map (fun q => getA q.all_processes "A")
        = Except.ok (some { statusQueuedA with queue_position := some 1 })) := by
  refine ⟨(restart_resets_record qmQueuedA "Z").2 (by decide), ?_⟩
  obtain ⟨qm', hok, hq, hget, -, -, -⟩ :=
    (restart_resets_record qmQueuedA "A").1 statusQueuedA (by decide)
  rw [hok]
  show Except.ok (getA qm'.all_processes "A") = _
  rw [hget]
  rfl

/-- C8: registering a configuration whose id already exists fails with the
duplicate error (the Rust error path returns before any mutation, so the
registry, queue and both indices are unchanged); a fresh id creates a
Queued record carrying the tail position and appends the configuration to
the tail of the queue, leaving both secondary indices and every other
record untouched. -/
theorem add_to_queue_spec (qm : QueueManager) (config : ProcessConfig) :
    ((getA qm.all_processes config.process_id).isSome →
      qm.add_to_queue config =
        Except.error ("Process " ++ config.process_id ++ " already exists")) ∧
    (getA qm.all_processes config.process_id = none →
      ∃ qm', qm.add_to_queue config = Except.ok qm' ∧
        qm'.queued = qm.queued ++ [config] ∧
        qm'.active = qm.active ∧ qm'.synced = qm.synced ∧
        getA qm'.all_processes config.process_id = some
          { ProcessStatus.new config.name config.process_id with
            state := ProcessState.queued
            queue_position := some qm.queued.length } ∧
        (∀ j, j ≠ config.process_id →
          getA qm'.all_processes j = getA qm.all_processes j)) := by
  constructor
  · intro h
    unfold QueueManager.add_to_queue
    rw [if_pos h]
  · intro h
    unfold QueueManager.add_to_queue
    rw [if_neg (by simp [h])]
    refine ⟨_, rfl, rfl, rfl, rfl, ?_, ?_⟩
    · rw [getA_insertA, if_pos rfl]
      simp
    · intro j hj
      rw [getA_insertA, if_neg hj]

theorem add_to_queue_spec_witness :
    (qmQueuedA.add_to_queue configA
        = Except.error ("Process A already exists")) ∧
    ((qmQueuedA.add_to_queue configB).map
        (fun q => (q.queued, getA q.all_processes configB.process_id, q.active, q.synced))
      = Except.ok ([configA, configB],
          some { ProcessStatus.new "B" "B" with
                 state := ProcessState.queued, queue_position := some 1 },
          [], [])) := by
  refine ⟨(add_to_queue_spec qmQueuedA configA).1 (by decide), ?_⟩
  obtain ⟨qm', hok, hq, ha, hs, hget, -⟩ :=
    (add_to_queue_spec qmQueuedA configB).2 (by decide)
  rw [hok]
  show Except.ok (qm'.queued, getA qm'.all_processes configB.process_id, qm'.active, qm'.synced) = _
  rw [hq, ha, hs, hget]
  rfl



/-- C9: when either of the two joined slot reads fails, `check_slots`
propagates the failure, and `check_process` called with the failed poll
returns the manager exactly as it came in, reporting the error to the
caller only: in particular the polled record keeps its previous
`computed_slot`, `current_slot`, `last_checked` and metrics. -/
theorem poll_failure_leaves_record_untouched (qm : QueueManager) (p : ProcessStatus)
    (r : Except String ReservesResult) (now : Nat)
    (computedRes currentRes : Except String (Nat × Rat))
    (h : (∃ e, computedRes = Except.error e) ∨ (∃ e, currentRes = Except.error e)) :
    ∃ e, check_slots computedRes currentRes = Except.error e ∧
      check_process qm p (check_slots computedRes currentRes) r now = (qm, some e) ∧
      ∀ st, getA qm.all_processes p.process_id = some st →
        getA (check_process qm p (check_slots computedRes currentRes) r now).1.all_processes
          p.process_id = some st := by
  have her : ∃ e, check_slots computedRes currentRes = Except.error e := by
    rcases h with ⟨e, he⟩ | ⟨e, he⟩
    · exact ⟨e, by rw [he]; rfl⟩
    · cases computedRes with
      | error e' => exact ⟨e', rfl⟩
      | ok v =>
        obtain ⟨a, t⟩ := v
        exact ⟨e, by rw [he]; rfl⟩
  obtain ⟨e, he⟩ := her
  refine ⟨e, he, ?_, ?_⟩
  · rw [he]; rfl
  · intro st hst
    rw [he]
    exact hst

theorem poll_failure_leaves_record_untouched_witness :
    ∃ e, check_slots (Except.error "boom") (Except.ok (1, 0)) = Except.error e ∧
      check_process qmQueuedA statusQueuedA
          (check_slots (Except.error "boom") (Except.ok (1, 0)))
          (Except.error "no reserves") 5 = (qmQueuedA, some e) ∧
      ∀ st, getA qmQueuedA.all_processes "A" = some st →
        getA (check_process qmQueuedA statusQueuedA
            (check_slots (Except.error "boom") (Except.ok (1, 0)))
            (Except.error "no reserves") 5).1.all_processes "A" = some st :=
  poll_failure_leaves_record_untouched qmQueuedA statusQueuedA
    (Except.error "no reserves") 5 (Except.error "boom") (Except.ok (1, 0))
    (Or.inl ⟨"boom", rfl⟩)



theorem getA_mem {α : Type} {m : List (String × α)} {k : String} {v : α}
    (h : getA m k = some v) : (k, v) ∈ m := by
  induction m with
  | nil => simp [getA] at h
  | cons a t ih =>
    by_cases hk : a.1 = k
    · rw [getA, if_pos hk] at h
      have hv : a.2 = v := by injection h
      subst hk
      subst hv
      exact List.mem_cons_self a t
    · rw [getA, if_neg hk] at h
      exact List.mem_cons_of_mem _ (ih h)

theorem getA_eq_some_of_mem_nodup {α : Type} {m : List (String × α)} {k : String} {v : α}
    (hn : (m.map (·.1)).Nodup) (h : (k, v) ∈ m) : getA m k = some v := by
  induction m with
  | nil => simp at h
  | cons a t ih =>
    rcases List.mem_cons.mp h with h | h
    · rw [getA, if_pos (by rw [← h])]
      rw [← h]
    · have hn' := hn
      rw [List.map_cons, List.nodup_cons] at hn'
      have hk : a.1 ≠ k := by
        intro hak
        have hmem : k ∈ t.map (·.1) := List.mem_map.mpr ⟨(k, v), h, rfl⟩
        exact hn'.1 (hak ▸ hmem)
      rw [getA, if_neg hk]
      exact ih hn'.2 h

theorem keys_nodup_filter {α : Type} (m : List (String × α)) (f : String × α → Bool)
    (hn : (m.map (·.1)).Nodup) : ((m.filter f).map (·.1)).Nodup :=
  List.Nodup.sublist ((List.filter_sublist m).map (·.1)) hn

theorem mem_keys_iff {α : Type} (m : List (String × α)) (k : String) :
    k ∈ m.map (·.1) ↔ ∃ v, (k, v) ∈ m := by
  constructor
  · intro h
    rcases List.mem_map.mp h with ⟨⟨a, b⟩, hm, hk⟩
    exact ⟨b, by rw [← hk]; exact hm⟩
  · rintro ⟨v, hv⟩
    exact List.mem_map.mpr ⟨(k, v), hv, rfl⟩


/-- The AO side of `reserves_match` filters by length only, but each excluded
keyword is shorter than 43 characters, so the two filters coincide. -/
theorem filter_len43_eq_filteredTokens (ao : List (String × String)) :
    (ao.filter fun p => p.1.length == 43) = filteredTokens ao := by
  unfold filteredTokens
  apply List.filter_congr
  intro p _
  cases hc : excludedReserveKeys.contains p.1 with
  | false => simp [hc]
  | true =>
    have hmem : p.1 = "TokenA" ∨ p.1 = "TokenB" ∨ p.1 = "K" := by
      have hm : p.1 ∈ excludedReserveKeys := by
        simpa using hc
      simpa [excludedReserveKeys] using hm
    rcases hmem with h | h | h <;> rw [h] <;> rfl



/-- C7: `reserves_match` is unknown (`none`) exactly on the absent-map
inputs; with both maps present (key-unique, as Rust `HashMap`s are), it is
always a Boolean verdict, and the verdict is `some true` precisely when the
two maps restricted to 43-character keys (the placeholder keywords being
skipped — on the AO side the skip is implied by the length filter, since
every excluded keyword is shorter than 43 characters) have identical key
sets and identical string values on every shared key; any size, key-set or
value discrepancy yields `some false`. -/
theorem reserves_match_characterization (s : ProcessStatus) :
    ((s.hb_reserves = none ∨ s.ao_reserves = none) → s.reserves_match = none) ∧
    (∀ hb ao, s.hb_reserves = some hb → s.ao_reserves = some ao →
      (hb.map (·.1)).Nodup → (ao.map (·.1)).Nodup →
      (s.reserves_match = some true ∨ s.reserves_match = some false) ∧
      (s.reserves_match = some true ↔
        ((∀ k, k ∈ (filteredTokens hb).map (·.1) ↔ k ∈ (filteredTokens ao).map (·.1)) ∧
         (∀ k v w, (k, v) ∈ filteredTokens hb → (k, w) ∈ filteredTokens ao → v = w)))) := by
  constructor
  · rintro (h | h)
    · unfold ProcessStatus.reserves_match
      rw [h]
    · unfold ProcessStatus.reserves_match
      rw [h]
      cases s.hb_reserves <;> rfl
  · intro hb ao hhb hao hnb hna
    have hFn : ((filteredTokens hb).map (·.1)).Nodup := keys_nodup_filter hb _ hnb
    have hGn : ((filteredTokens ao).map (·.1)).Nodup := keys_nodup_filter ao _ hna
    have h1 : (∀ p ∈ filteredTokens hb, getA (filteredTokens ao) p.1 = some p.2) →
        ∀ k v w, (k, v) ∈ filteredTokens hb → (k, w) ∈ filteredTokens ao → v = w := by
      intro hAF k v w hkF hkG
      have hv := hAF (k, v) hkF
      have hw := getA_eq_some_of_mem_nodup hGn hkG
      rw [hv] at hw
      injection hw
    have h2 : (∀ p ∈ filteredTokens hb, getA (filteredTokens ao) p.1 = some p.2) →
        ∀ k, k ∈ (filteredTokens hb).map (·.1) → k ∈ (filteredTokens ao).map (·.1) := by
      intro hAF k hk
      rcases (mem_keys_iff _ k).mp hk with ⟨v, hv⟩
      exact (mem_keys_iff _ k).mpr ⟨v, getA_mem (hAF (k, v) hv)⟩
    have h3 : ((∀ k, k ∈ (filteredTokens hb).map (·.1) ↔ k ∈ (filteredTokens ao).map (·.1)) ∧
        (∀ k v w, (k, v) ∈ filteredTokens hb → (k, w) ∈ filteredTokens ao → v = w)) →
        ∀ p ∈ filteredTokens hb, getA (filteredTokens ao) p.1 = some p.2 := by
      rintro ⟨hsk, hsv⟩ ⟨k, v⟩ hp
      have hk := (hsk k).mp ((mem_keys_iff _ k).mpr ⟨v, hp⟩)
      rcases (mem_keys_iff _ k).mp hk with ⟨w, hw⟩
      rw [hsv k v w hp hw]
      exact getA_eq_some_of_mem_nodup hGn hw
    have h4 : (∀ k, k ∈ (filteredTokens hb).map (·.1) ↔ k ∈ (filteredTokens ao).map (·.1)) →
        (filteredTokens hb).length = (filteredTokens ao).length := by
      intro hsk
      have hperm := (List.perm_ext_iff_of_nodup hFn hGn).mpr hsk
      simpa using hperm.length_eq
    have h5 : (∀ p ∈ filteredTokens hb, getA (filteredTokens ao) p.1 = some p.2) →
        (filteredTokens hb).length = (filteredTokens ao).length →
        ∀ k, k ∈ (filteredTokens hb).map (·.1) ↔ k ∈ (filteredTokens ao).map (·.1) := by
      intro hAF hlen
      have hsub := h2 hAF
      have hsp := List.subperm_of_subset hFn hsub
      have hperm := hsp.perm_of_length_le (by simpa using hlen.ge)
      exact fun k => hperm.mem_iff
    have hpred : ∀ p : String × String,
        ((match getA (filteredTokens ao) p.1 with
          | some w => p.2 != w
          | none => true) = true) ↔ ¬ getA (filteredTokens ao) p.1 = some p.2 := by
      intro p
      cases hg : getA (filteredTokens ao) p.1 with
      | some w =>
        show (p.2 != w) = true ↔ ¬ some w = some p.2
        simp only [bne_iff_ne, ne_eq, Option.some.injEq]
        constructor
        · intro hne heq
          exact hne heq.symm
        · intro hne heq
          exact hne heq.symm
      | none => simp [hg]
    have hRM : s.reserves_match =
        (if (filteredTokens hb).length ≠ (ao.filter fun p => p.1.length == 43).length
           then some false
         else if (filteredTokens hb).any fun p =>
             (match getA (ao.filter fun p => p.1.length == 43) p.1 with
              | some w => p.2 != w
              | none => true)
           then some false
         else some true) := by
      unfold ProcessStatus.reserves_match
      rw [hhb, hao]
      rfl
    rw [filter_len43_eq_filteredTokens ao] at hRM
    rw [hRM]
    constructor
    · split_ifs <;> simp
    · split_ifs with hlen hmiss
      · constructor
        · intro habs
          exact absurd habs (by simp)
        · rintro ⟨hsk, hsv⟩
          exact absurd (h4 hsk) hlen
      · constructor
        · intro habs
          exact absurd habs (by simp)
        · rintro ⟨hsk, hsv⟩
          rcases List.any_eq_true.mp hmiss with ⟨p, hpF, hpm⟩
          exact absurd (h3 ⟨hsk, hsv⟩ p hpF) ((hpred p).mp hpm)
      · have hAF : ∀ p ∈ filteredTokens hb, getA (filteredTokens ao) p.1 = some p.2 := by
          intro p hp
          by_contra hc
          exact hmiss (List.any_eq_true.mpr ⟨p, hp, (hpred p).mpr hc⟩)
        have hlen' : (filteredTokens hb).length = (filteredTokens ao).length := by
          by_contra hc
          exact hlen hc
        simp only [true_iff]
        exact ⟨h5 hAF hlen', h1 hAF⟩

theorem reserves_match_characterization_witness :
    statusQueuedA.reserves_match = none ∧
    (statusReserves.reserves_match = some true ∨
      statusReserves.reserves_match = some false) :=
  ⟨(reserves_match_characterization statusQueuedA).1 (Or.inl rfl),
   ((reserves_match_characterization statusReserves).2 _ _ rfl rfl
      (by decide) (by decide)).1⟩



theorem getA_cons {α : Type} (a : String × α) (t : List (String × α)) (k : String) :
    getA (a :: t) k = if a.1 = k then some a.2 else getA t k := rfl

theorem renumberFrom_getA_of_not_mem (cs : List ProcessConfig)
    (all : List (String × ProcessStatus)) (i : Nat) (k : String)
    (h : k ∉ cs.map (·.process_id)) :
    getA (renumberFrom all i cs) k = getA all k := by
  induction cs generalizing all i with
  | nil => rfl
  | cons c cs ih =>
    rw [List.map_cons, List.mem_cons] at h
    push_neg at h
    simp only [renumberFrom]
    cases hg : getA all c.process_id with
    | some st =>
      dsimp only
      rw [ih _ _ h.2, getA_insertA, if_neg h.1]
    | none =>
      dsimp only
      exact ih _ _ h.2

theorem renumberFrom_getA_of_mem (cs : List ProcessConfig) :
    ∀ (all : List (String × ProcessStatus)) (i : Nat),
    (cs.map (·.process_id)).Nodup →
    (∀ c ∈ cs, (getA all c.process_id).isSome) →
    ∀ j (hj : j < cs.length) st,
      getA all (cs.get ⟨j, hj⟩).process_id = some st →
      getA (renumberFrom all i cs) (cs.get ⟨j, hj⟩).process_id
        = some { st with queue_position := some (i + j) } := by
  induction cs with
  | nil =>
    intro all i _ _ j hj
    exact absurd hj (by simp)
  | cons c cs ih =>
    intro all i hnodup hreg j hj st hst
    rw [List.map_cons, List.nodup_cons] at hnodup
    cases j with
    | zero =>
      have hst' : getA all c.process_id = some st := hst
      show getA (renumberFrom all i (c :: cs)) c.process_id
        = some { st with queue_position := some (i + 0) }
      simp only [renumberFrom, hst']
      rw [renumberFrom_getA_of_not_mem cs _ _ _ hnodup.1, getA_insertA, if_pos rfl]
      simp
    | succ j' =>
      have hst0 : getA all (cs.get ⟨j', Nat.lt_of_succ_lt_succ hj⟩).process_id = some st := hst
      show getA (renumberFrom all i (c :: cs))
          (cs.get ⟨j', Nat.lt_of_succ_lt_succ hj⟩).process_id
        = some { st with queue_position := some (i + (j' + 1)) }
      cases hg : getA all c.process_id with
      | none =>
        exact absurd (hreg c (List.mem_cons_self c cs)) (by rw [hg]; simp)
      | some cst =>
        simp only [renumberFrom, hg]
        have hne : (cs.get ⟨j', Nat.lt_of_succ_lt_succ hj⟩).process_id ≠ c.process_id := by
          intro he
          apply hnodup.1
          rw [← he]
          exact List.mem_map.mpr ⟨cs.get ⟨j', Nat.lt_of_succ_lt_succ hj⟩, List.get_mem _ _ _, rfl⟩
        have hreg' : ∀ c' ∈ cs, (getA (insertA all c.process_id
            { cst with queue_position := some i }) c'.process_id).isSome := by
          intro c' hc'
          rw [getA_insertA]
          by_cases hcc : c'.process_id = c.process_id
          · rw [if_pos hcc]; rfl
          · rw [if_neg hcc]; exact hreg c' (List.mem_cons_of_mem _ hc')
        have hst' : getA (insertA all c.process_id { cst with queue_position := some i })
            (cs.get ⟨j', Nat.lt_of_succ_lt_succ hj⟩).process_id = some st := by
          rw [getA_insertA, if_neg hne]
          exact hst
        have hres := ih (insertA all c.process_id { cst with queue_position := some i })
          (i + 1) hnodup.2 hreg' j' (Nat.lt_of_succ_lt_succ hj) st hst'
        rw [hres]
        have harith : i + 1 + j' = i + (j' + 1) := by omega
        rw [harith]



/-- C4 counterexample: register A and B, admit A, restart A twice (the second
restart duplicates A's queue entry), then call admit_next again. The admit
pops B and renumbers the remaining queue [A, A], writing A's position twice;
afterwards exactly one record (A) is in Queued state, and its
`queue_position` is `some 1`, not `some 0`: the positions of the queued
records are {1}, not the contiguous 0..n-1 = {0} the claim requires. -/
theorem queue_positions_skip_after_admit_with_duplicate :
    qmDupQueue.queued.map (·.process_id) = ["A", "A"] ∧
    (List.filter (fun p => decide (p.2.state = ProcessState.queued))
        qmDupQueue.all_processes).map (fun p => p.2.queue_position) = [some 1] ∧
    (getA qmDupQueue.all_processes "A").map (fun s => (s.state, s.queue_position))
      = some (ProcessState.queued, some 1) ∧
    some 1 ≠ (some 0 : Option Nat) := by decide

/-- C4 amended: after an `activate_next` that admits the head of the queue
(capacity available), PROVIDED the prior queue's ids are distinct and every
queued id is registered: the remaining queued records' `queue_position`
values are exactly 0..n-1 in FIFO order, the admitted record's position is
cleared, every record whose id is neither the admitted id nor in the
remaining queue is left completely unchanged (the frame of the operation),
and consequently, if before the call no record outside the queue carried a
`queue_position`, afterwards no record outside the remaining queue carries
one. The distinctness proviso is necessary for the 0..n-1 part: the queue
can hold the same id twice (restart of an already-queued id), and then the
renumbering loop writes that record's position once per occurrence, so the
surviving positions skip indices, as the counterexample shows. -/
theorem admit_renumbers_positions (qm : QueueManager) (now : Nat)
    (config : ProcessConfig) (rest : List ProcessConfig)
    (hq : qm.queued = config :: rest)
    (hcap : qm.active.length < MAX_ACTIVE_PROCESSES)
    (hnodup : (qm.queued.map (·.process_id)).Nodup)
    (hreg : ∀ c ∈ qm.queued, (getA qm.all_processes c.process_id).isSome) :
    (qm.activate_next now).1 = some config ∧
    ((qm.activate_next now).2).queued = rest ∧
    (∀ i (hi : i < rest.length),
      (getA ((qm.activate_next now).2).all_processes (rest.get ⟨i, hi⟩).process_id).map
        (fun st => st.queue_position) = some (some i)) ∧
    (getA ((qm.activate_next now).2).all_processes config.process_id).map
        (fun st => st.queue_position) = some none ∧
    (∀ k, k ∉ rest.map (·.process_id) → k ≠ config.process_id →
      getA ((qm.activate_next now).2).all_processes k = getA qm.all_processes k) ∧
    ((∀ k stk, getA qm.all_processes k = some stk → stk.queue_position.isSome →
        k ∈ qm.queued.map (·.process_id)) →
      ∀ k stk, getA ((qm.activate_next now).2).all_processes k = some stk →
        stk.queue_position.isSome → k ∈ rest.map (·.process_id)) := by
  rw [hq] at hnodup hreg
  rw [List.map_cons, List.nodup_cons] at hnodup
  have hcfg : (getA qm.all_processes config.process_id).isSome :=
    hreg config (List.mem_cons_self _ _)
  cases hg : getA qm.all_processes config.process_id with
  | none => rw [hg] at hcfg; exact absurd hcfg (by simp)
  | some st =>
    have hact : qm.activate_next now =
        (some config,
          { qm with
            active := insertA qm.active config.process_id
              { st with
                state := ProcessState.active
                activated_at := some now
                queue_position := none }
            queued := rest
            all_processes := renumberFrom
              (insertA qm.all_processes config.process_id
                { st with
                  state := ProcessState.active
                  activated_at := some now
                  queue_position := none }) 0 rest }) := by
      unfold QueueManager.activate_next
      rw [if_neg (by omega), hq]
      dsimp only
      rw [hg]
    rw [hact]
    refine ⟨rfl, rfl, ?_, ?_, ?_, ?_⟩
    · intro i hi
      have hne : (rest.get ⟨i, hi⟩).process_id ≠ config.process_id := by
        intro he
        apply hnodup.1
        rw [← he]
        exact List.mem_map.mpr ⟨rest.get ⟨i, hi⟩, List.get_mem _ _ _, rfl⟩
      have hreg' : ∀ c ∈ rest, (getA (insertA qm.all_processes config.process_id
          { st with
            state := ProcessState.active
            activated_at := some now
            queue_position := none }) c.process_id).isSome := by
        intro c hc
        rw [getA_insertA]
        by_cases hcc : c.process_id = config.process_id
        · rw [if_pos hcc]; rfl
        · rw [if_neg hcc]; exact hreg c (List.mem_cons_of_mem _ hc)
      have hsome := hreg' (rest.get ⟨i, hi⟩) (List.get_mem _ _ _)
      cases hsti : getA (insertA qm.all_processes config.process_id
          { st with
            state := ProcessState.active
            activated_at := some now
            queue_position := none }) (rest.get ⟨i, hi⟩).process_id with
      | none => rw [hsti] at hsome; exact absurd hsome (by simp)
      | some sti =>
        have := renumberFrom_getA_of_mem rest _ 0 hnodup.2 hreg' i hi sti hsti
        rw [this]
        simp
    · rw [renumberFrom_getA_of_not_mem rest _ 0 _ hnodup.1, getA_insertA, if_pos rfl]
      rfl
    · intro k hk1 hk2
      rw [renumberFrom_getA_of_not_mem rest _ 0 _ hk1, getA_insertA, if_neg hk2]
    · intro hpos k stk hget hsome
      by_cases hk1 : k ∈ rest.map (·.process_id)
      · exact hk1
      · by_cases hk2 : k = config.process_id
        · subst hk2
          rw [renumberFrom_getA_of_not_mem rest _ 0 _ hk1, getA_insertA, if_pos rfl] at hget
          injection hget with hget
          rw [← hget] at hsome
          simp at hsome
        · rw [renumberFrom_getA_of_not_mem rest _ 0 _ hk1, getA_insertA, if_neg hk2] at hget
          have hmem := hpos k stk hget hsome
          rw [hq, List.map_cons, List.mem_cons] at hmem
          rcases hmem with h | h
          · exact absurd h hk2
          · exact absurd h hk1

theorem admit_renumbers_positions_witness :
    (qmTwoQueued.activate_next 3).1 = some configA ∧
    ((qmTwoQueued.activate_next 3).2).queued = [configB] ∧
    (getA ((qmTwoQueued.activate_next 3).2).all_processes "B").map
        (fun st => st.queue_position) = some (some 0) ∧
    (getA ((qmTwoQueued.activate_next 3).2).all_processes "A").map
        (fun st => st.queue_position) = some none ∧
    getA ((qmTwoQueued.activate_next 3).2).all_processes "Z"
        = getA qmTwoQueued.all_processes "Z" := by
  obtain ⟨h1, h2, h3, h4, h5, h6⟩ := admit_renumbers_positions qmTwoQueued 3 configA [configB]
    rfl (by decide) (by decide) (by decide)
  exact ⟨h1, h2, h3 0 (by decide), h4, h5 "Z" (by decide) (by decide)⟩



theorem getA_map_snd {α β : Type} (f : α → β) (m : List (String × α)) (k : String) :
    getA (m.map fun p => (p.1, f p.2)) k = (getA m k).map f := by
  induction m with
  | nil => rfl
  | cons a t ih =>
    by_cases h : a.1 = k
    · simp [getA_cons, getA, h]
    · simp [getA_cons, getA, h, ih]

theorem loadStep_all (acc : QueueManager) (p : String × ProcessStatusData) :
    (loadStep acc p).all_processes = insertA acc.all_processes p.1 (dataToStatus p.1 p.2) := by
  obtain ⟨id, d⟩ := p
  unfold loadStep
  cases d.state <;> rfl

theorem loadStep_foldl_getA (l : List (String × ProcessStatusData)) (acc : QueueManager)
    (k : String) (hn : (l.map (·.1)).Nodup) :
    getA (l.foldl loadStep acc).all_processes k =
      match getA l k with
      | some d => some (dataToStatus k d)
      | none => getA acc.all_processes k := by
  induction l generalizing acc with
  | nil => rfl
  | cons a t ih =>
    rw [List.map_cons, List.nodup_cons] at hn
    rw [List.foldl_cons, ih _ hn.2, getA_cons]
    by_cases hk : a.1 = k
    · have htk : getA t k = none := by
        cases hg : getA t k with
        | none => rfl
        | some v =>
          exact absurd (List.mem_map.mpr ⟨(k, v), getA_mem hg, rfl⟩) (hk ▸ hn.1)
      rw [htk, if_pos hk, loadStep_all, getA_insertA, if_pos hk.symm, hk]
    · rw [if_neg hk]
      cases hg : getA t k with
      | some d => rfl
      | none =>
        rw [loadStep_all, getA_insertA, if_neg (fun h => hk h.symm)]


theorem restoreQueue_queued (ids : List String) :
    ∀ (all : List (String × ProcessStatus)) (qs : List ProcessConfig) (i : Nat),
    (∀ id ∈ ids, (getA all id).isSome) →
    (restoreQueue all qs i ids).2.map (·.process_id) = qs.map (·.process_id) ++ ids := by
  induction ids with
  | nil =>
    intro all qs i _
    simp [restoreQueue]
  | cons pid rest ih =>
    intro all qs i h
    cases hg : getA all pid with
    | none =>
      exact absurd (h pid (List.mem_cons_self _ _)) (by rw [hg]; simp)
    | some st =>
      simp only [restoreQueue, hg]
      rw [ih]
      · simp
      · intro id hid
        rw [getA_insertA]
        by_cases hc : id = pid
        · rw [if_pos hc]; rfl
        · rw [if_neg hc]; exact h id (List.mem_cons_of_mem _ hid)

/-- The field relation `restoreQueue` maintains on the registry: presence of
every key is unchanged, and each record keeps its state (given that every
listed id already maps to a Queued record), both slot fields, metrics and
reserve maps — the loop touches only `queue_position` and (re-)writes
`state := Queued`. -/
theorem restoreQueue_getA (ids : List String) :
    ∀ (all : List (String × ProcessStatus)) (qs : List ProcessConfig) (i : Nat),
    (∀ id ∈ ids, ∀ st, getA all id = some st → st.state = ProcessState.queued) →
    ∀ k, ((getA (restoreQueue all qs i ids).1 k).isSome = (getA all k).isSome) ∧
      (∀ st st', getA all k = some st → getA (restoreQueue all qs i ids).1 k = some st' →
        st'.state = st.state ∧ st'.computed_slot = st.computed_slot ∧
        st'.current_slot = st.current_slot ∧ st'.metrics = st.metrics ∧
        st'.hb_reserves = st.hb_reserves ∧ st'.ao_reserves = st.ao_reserves) := by
  induction ids with
  | nil =>
    intro all qs i _ k
    refine ⟨rfl, ?_⟩
    intro st st' h1 h2
    have h2' : getA all k = some st' := h2
    rw [h1] at h2'
    injection h2' with h3
    rw [h3]
    exact ⟨rfl, rfl, rfl, rfl, rfl, rfl⟩
  | cons pid rest ih =>
    intro all qs i hstate k
    cases hg : getA all pid with
    | none =>
      simp only [restoreQueue, hg]
      exact ih all qs (i + 1) (fun id hid => hstate id (List.mem_cons_of_mem _ hid)) k
    | some st0 =>
      simp only [restoreQueue, hg]
      have hst0 : st0.state = ProcessState.queued := hstate pid (List.mem_cons_self _ _) st0 hg
      have hstate' : ∀ id ∈ rest, ∀ st,
          getA (insertA all pid { st0 with queue_position := some i, state := ProcessState.queued }) id = some st →
          st.state = ProcessState.queued := by
        intro id hid st h
        rw [getA_insertA] at h
        by_cases hc : id = pid
        · rw [if_pos hc] at h
          injection h with h
          rw [← h]
        · rw [if_neg hc] at h
          exact hstate id (List.mem_cons_of_mem _ hid) st h
      have hrel := ih (insertA all pid { st0 with queue_position := some i, state := ProcessState.queued })
        (qs ++ [{ name := st0.name, process_id := pid, base_url := none }]) (i + 1) hstate' k
      by_cases hc : k = pid
      · subst hc
        refine ⟨?_, ?_⟩
        · rw [hrel.1, getA_insertA, if_pos rfl, hg]
          rfl
        · intro st st' h1 h2
          rw [hg] at h1
          injection h1 with h1
          have h1' : getA (insertA all k { st0 with queue_position := some i, state := ProcessState.queued }) k = some { st0 with queue_position := some i, state := ProcessState.queued } := by
            rw [getA_insertA, if_pos rfl]
          have hcomp := hrel.2 _ st' h1' h2
          rw [← h1]
          refine ⟨?_, hcomp.2.1, hcomp.2.2.1, hcomp.2.2.2.1, hcomp.2.2.2.2.1, hcomp.2.2.2.2.2⟩
          rw [hcomp.1, hst0]
      · refine ⟨?_, ?_⟩
        · rw [hrel.1, getA_insertA, if_neg hc]
        · intro st st' h1 h2
          have h1' : getA (insertA all pid { st0 with queue_position := some i, state := ProcessState.queued }) k = some st := by
            rw [getA_insertA, if_neg hc]
            exact h1
          exact hrel.2 st st' h1' h2



/-- C6: saving to the persisted document and loading it back along the
explicit queued-id-list path (non-empty queue) preserves the set of
registered ids, each record's state, both slot values and the FIFO order of
the queue's ids; after the reload the latency sample window is empty and
both reserve maps are absent for every record. The hypotheses state that
the saved manager is well formed: registry keys are unique (a Rust
`HashMap` guarantees this) and every queued id is registered with state
Queued. -/
theorem save_load_roundtrip (qm : QueueManager) (now : Nat)
    (hnk : (qm.all_processes.map (·.1)).Nodup)
    (hne : qm.queued ≠ [])
    (hq : ∀ c ∈ qm.queued, (getA qm.all_processes c.process_id).map (fun st => st.state)
        = some ProcessState.queued) :
    (load_state (save_state qm now)).queued.map (·.process_id)
        = qm.queued.map (·.process_id) ∧
    (∀ k, (getA (load_state (save_state qm now)).all_processes k).isSome
        = (getA qm.all_processes k).isSome) ∧
    (∀ k st, getA qm.all_processes k = some st →
      ∃ st', getA (load_state (save_state qm now)).all_processes k = some st' ∧
        st'.state = st.state ∧
        st'.computed_slot = st.computed_slot ∧
        st'.current_slot = st.current_slot ∧
        st'.metrics.api_response_times = [] ∧
        st'.hb_reserves = none ∧
        st'.ao_reserves = none) := by
  have hprocs : (save_state qm now).processes
      = qm.all_processes.map (fun p => (p.1, statusToData p.2)) := rfl
  have hqids : (save_state qm now).queued_process_ids = qm.queued.map (·.process_id) := rfl
  have hpk : ((save_state qm now).processes.map (·.1)).Nodup := by
    rw [hprocs]
    have hmm : (qm.all_processes.map (fun p => (p.1, statusToData p.2))).map (·.1)
        = qm.all_processes.map (·.1) := by
      rw [List.map_map]
      rfl
    rw [hmm]
    exact hnk
  have hqm0 : ∀ k,
      getA ((save_state qm now).processes.foldl loadStep QueueManager.new).all_processes k
        = (getA qm.all_processes k).map (fun st => dataToStatus k (statusToData st)) := by
    intro k
    rw [loadStep_foldl_getA _ _ _ hpk, hprocs, getA_map_snd]
    cases getA qm.all_processes k <;> rfl
  have hbranch : (save_state qm now).queued_process_ids ≠ [] := by
    rw [hqids]
    intro h
    exact hne (List.map_eq_nil_iff.mp h)
  have hload : load_state (save_state qm now) =
      { (save_state qm now).processes.foldl loadStep QueueManager.new with
        all_processes := (restoreQueue
          ((save_state qm now).processes.foldl loadStep QueueManager.new).all_processes
          [] 0 (save_state qm now).queued_process_ids).1
        queued := (restoreQueue
          ((save_state qm now).processes.foldl loadStep QueueManager.new).all_processes
          [] 0 (save_state qm now).queued_process_ids).2 } := by
    unfold load_state
    rw [if_pos hbranch]
  have hqreg : ∀ id ∈ (save_state qm now).queued_process_ids,
      (getA ((save_state qm now).processes.foldl loadStep
        QueueManager.new).all_processes id).isSome := by
    intro id hid
    rw [hqids] at hid
    rcases List.mem_map.mp hid with ⟨c, hc, hcid⟩
    rw [hqm0]
    have := hq c hc
    rw [hcid] at this
    cases hg : getA qm.all_processes id with
    | none => rw [hg] at this; exact absurd this (by simp)
    | some st => rfl
  have hqstate : ∀ id ∈ (save_state qm now).queued_process_ids, ∀ st,
      getA ((save_state qm now).processes.foldl loadStep
        QueueManager.new).all_processes id = some st →
      st.state = ProcessState.queued := by
    intro id hid st hst
    rw [hqids] at hid
    rcases List.mem_map.mp hid with ⟨c, hc, hcid⟩
    have hqc := hq c hc
    rw [hcid] at hqc
    rw [hqm0] at hst
    cases hg : getA qm.all_processes id with
    | none => rw [hg] at hst; exact absurd hst (by simp)
    | some st0 =>
      rw [hg] at hst hqc
      injection hst with hst
      injection hqc with hqc
      rw [← hst]
      exact hqc
  refine ⟨?_, ?_, ?_⟩
  · rw [hload]
    show (restoreQueue _ [] 0 _).2.map (·.process_id) = _
    rw [restoreQueue_queued _ _ _ _ hqreg]
    rw [hqids]
    rfl
  · intro k
    rw [hload]
    show (getA (restoreQueue _ [] 0 _).1 k).isSome = _
    rw [(restoreQueue_getA _ _ [] 0 hqstate k).1, hqm0]
    cases getA qm.all_processes k <;> rfl
  · intro k st hst
    have h0 : getA ((save_state qm now).processes.foldl loadStep
        QueueManager.new).all_processes k = some (dataToStatus k (statusToData st)) := by
      rw [hqm0, hst]
      rfl
    have hisome : (getA (load_state (save_state qm now)).all_processes k).isSome := by
      rw [hload]
      show (getA (restoreQueue _ [] 0 _).1 k).isSome = true
      rw [(restoreQueue_getA _ _ [] 0 hqstate k).1, h0]
      rfl
    rcases Option.isSome_iff_exists.mp hisome with ⟨st', hst'⟩
    have hst'' : getA (restoreQueue
        ((save_state qm now).processes.foldl loadStep QueueManager.new).all_processes
        [] 0 (save_state qm now).queued_process_ids).1 k = some st' := by
      rw [hload] at hst'
      exact hst'
    have hrel := (restoreQueue_getA _ _ [] 0 hqstate k).2
      (dataToStatus k (statusToData st)) st' h0 hst''
    refine ⟨st', hst', ?_, ?_, ?_, ?_, ?_, ?_⟩
    · rw [hrel.1]; rfl
    · rw [hrel.2.1]; rfl
    · rw [hrel.2.2.1]; rfl
    · rw [hrel.2.2.2.1]; rfl
    · rw [hrel.2.2.2.2.1]; rfl
    · rw [hrel.2.2.2.2.2]; rfl

theorem save_load_roundtrip_witness :
    (load_state (save_state qmPersist 9)).queued.map (·.process_id)
        = qmPersist.queued.map (·.process_id) ∧
    (getA (load_state (save_state qmPersist 9)).all_processes "A").isSome
        = (getA qmPersist.all_processes "A").isSome ∧
    (∃ st', getA (load_state (save_state qmPersist 9)).all_processes "A" = some st' ∧
        st'.state = ProcessState.synced ∧
        st'.metrics.api_response_times = [] ∧
        st'.hb_reserves = none ∧ st'.ao_reserves = none) := by
  obtain ⟨h1, h2, h3⟩ := save_load_roundtrip qmPersist 9 (by decide) (by decide) (by decide)
  refine ⟨h1, h2 "A", ?_⟩
  obtain ⟨st', hget, hstate, -, -, hapi, hhb, hao⟩ := h3 "A" _ rfl
  exact ⟨st', hget, by rw [hstate]; decide, hapi, hhb, hao⟩

end Hydration
